import Mathlib

/-!
# EMQX operator: broker accessors, status conditions and plugin finalizers

A shallow embedding of `apis/apps/v1beta4/emqxbroker_types.go` (the `EmqxBroker`
object and its accessor methods) and of the helper code of
`e2e/v1beta3/suite_test.go` (the Running-condition lookup and
`removePluginsFinalizer`).

Conventions of the embedding.
* A Go pointer `*int32` is an `Option Int`: `none` is `nil`, `some r` points to `r`.
  No arithmetic is performed on replica counts, so the integers are kept as `Int`.
* A Go slice field that may be `nil` is an `Option (List _)`: `none` is the nil
  slice, `some []` the empty non-nil slice.
* A method with a pointer receiver that mutates the object is a function returning
  the updated object.
* Types that come from outside the two source files (Kubernetes metadata, volume
  claims, the pod and service templates) are type parameters.
-/

namespace Emqx

/-! ## Data model -/

/-- Go string type `corev1.ConditionStatus`. -/
abbrev ConditionStatus := String

/-- The value `corev1.ConditionTrue`. -/
def ConditionTrue : ConditionStatus := "True"

/-- The value `corev1.ConditionFalse`. -/
def ConditionFalse : ConditionStatus := "False"

/-- Go string type `ConditionType` of the operator's API package. -/
abbrev ConditionType := String

/-- Modelled from the spec: the constant `ConditionRunning` is declared outside the
source files; the spec names the cluster-level condition `Running`. No theorem below
depends on the literal. -/
def ConditionRunning : ConditionType := "Running"

/-- Modelled from the spec: the `Condition` type is declared outside the source files.
The spec lists its fields as (type, status, reason, timestamp); the suite reads
`c.Type` and `c.Status`. -/
structure Condition where
  Type_ : ConditionType
  Status : ConditionStatus
  Reason : String
  LastTransitionTime : Nat
  deriving DecidableEq, Repr

/-- Modelled from the spec: one entry of `NodeStatuses`, declared outside the source
files. The spec gives it the identity of one broker instance, its host and version
information and a health flag. -/
structure NodeStatus where
  Node : String
  Host : String
  Version : String
  Healthy : Bool
  deriving DecidableEq, Repr

/-- Modelled from the spec: the embedded `Status` type is declared outside the source
files. The spec (ClusterStatus) and the suite give it `Replicas`, `ReadyReplicas`,
`NodeStatuses` and `Conditions`. -/
structure Status where
  Replicas : Int
  ReadyReplicas : Int
  NodeStatuses : List NodeStatus
  Conditions : List Condition
  deriving DecidableEq, Repr

/-- The Go zero value of `Status`. -/
def Status.zero : Status :=
  { Replicas := 0, ReadyReplicas := 0, NodeStatuses := [], Conditions := [] }

/-- `EmqxBrokerSpec`: the desired state of an `EmqxBroker`. `P` is
`corev1.PersistentVolumeClaim`, `T` is `EmqxTemplate`, `S` is `ServiceTemplate`. -/
structure EmqxBrokerSpec (P T S : Type) where
  Replicas : Option Int
  VolumeClaimTemplates : Option (List P)
  Template : T
  ServiceTemplate : S

/-- `EmqxBroker`: the schema object. `K` is `metav1.TypeMeta`, `M` is
`metav1.ObjectMeta`; `Status` is the embedded status field. -/
structure EmqxBroker (K M P T S : Type) where
  TypeMeta : K
  ObjectMeta : M
  Spec : EmqxBrokerSpec P T S
  Status : Status

/-- The value of the marker `+kubebuilder:default:=3` on `EmqxBrokerSpec.Replicas`. -/
def kubebuilderDefaultReplicas : Int := 3

section Accessors

variable {K M P T S : Type}

/-- `func (emqx *EmqxBroker) GetReplicas() *int32`. -/
def EmqxBroker.GetReplicas (emqx : EmqxBroker K M P T S) : Option Int :=
  emqx.Spec.Replicas

/-- `func (emqx *EmqxBroker) SetReplicas(replicas int32)`. -/
def EmqxBroker.SetReplicas (emqx : EmqxBroker K M P T S) (replicas : Int) :
    EmqxBroker K M P T S :=
  { emqx with Spec := { emqx.Spec with Replicas := some replicas } }

/-- `func (emqx *EmqxBroker) GetVolumeClaimTemplates() []corev1.PersistentVolumeClaim`. -/
def EmqxBroker.GetVolumeClaimTemplates (emqx : EmqxBroker K M P T S) : Option (List P) :=
  emqx.Spec.VolumeClaimTemplates

/-- `func (emqx *EmqxBroker) SetVolumeClaimTemplates(volumeClaimTemplates ...)`. -/
def EmqxBroker.SetVolumeClaimTemplates (emqx : EmqxBroker K M P T S)
    (volumeClaimTemplates : Option (List P)) : EmqxBroker K M P T S :=
  { emqx with Spec := { emqx.Spec with VolumeClaimTemplates := volumeClaimTemplates } }

/-- `func (emqx *EmqxBroker) GetTemplate() EmqxTemplate`. -/
def EmqxBroker.GetTemplate (emqx : EmqxBroker K M P T S) : T :=
  emqx.Spec.Template

/-- `func (emqx *EmqxBroker) SetTemplate(template EmqxTemplate)`. -/
def EmqxBroker.SetTemplate (emqx : EmqxBroker K M P T S) (template : T) :
    EmqxBroker K M P T S :=
  { emqx with Spec := { emqx.Spec with Template := template } }

/-- `func (emqx *EmqxBroker) GetServiceTemplate() ServiceTemplate`. -/
def EmqxBroker.GetServiceTemplate (emqx : EmqxBroker K M P T S) : S :=
  emqx.Spec.ServiceTemplate

/-- `func (emqx *EmqxBroker) SetServiceTemplate(serviceTemplate ServiceTemplate)`. -/
def EmqxBroker.SetServiceTemplate (emqx : EmqxBroker K M P T S) (serviceTemplate : S) :
    EmqxBroker K M P T S :=
  { emqx with Spec := { emqx.Spec with ServiceTemplate := serviceTemplate } }

/-- `func (emqx *EmqxBroker) GetStatus() Status`. -/
def EmqxBroker.GetStatus (emqx : EmqxBroker K M P T S) : Emqx.Status :=
  emqx.Status

/-- `func (emqx *EmqxBroker) SetStatus(status Status)`. -/
def EmqxBroker.SetStatus (emqx : EmqxBroker K M P T S) (status : Emqx.Status) :
    EmqxBroker K M P T S :=
  { emqx with Status := status }

end Accessors

/-- Modelled from the spec: the defaulting of the replica count. The code that applies
it is outside the source files (the `Default()` method the suite calls on its broker
right after building it, and the platform's schema defaulting that the marker
`+kubebuilder:default:=3` on `EmqxBrokerSpec.Replicas` asks for), and the spec does
not describe it; only what the marker declares is modelled, through the accessors:
an unset replica count becomes 3, a set one is kept. -/
def EmqxBroker.Default {K M P T S : Type} (emqx : EmqxBroker K M P T S) :
    EmqxBroker K M P T S :=
  match emqx.GetReplicas with
  | none => emqx.SetReplicas kubebuilderDefaultReplicas
  | some _ => emqx

/-- An `EmqxBroker` whose spec gives only an image and leaves replicas unset, the shape
of the literal the suite builds before it calls `Default()`. Metadata is the pair
(name, namespace), the template is the image string. -/
def imageOnlyBroker : EmqxBroker Unit (String × String) Unit String Unit :=
  { TypeMeta := (), ObjectMeta := ("emqx", "broker"),
    Spec := { Replicas := none, VolumeClaimTemplates := none,
              Template := "emqx/emqx:4.4.5", ServiceTemplate := () },
    Status := Status.zero }

/-! ## The suite's Running-condition lookup -/

/-- The loop of the polled closure in `BeforeSuite`:
`running := corev1.ConditionFalse; for _, c := range conditions { if c.Type ==
ConditionRunning { running = c.Status } }; return running`. -/
def runningCondition (conditions : List Condition) : ConditionStatus :=
  conditions.foldl
    (fun running c => if c.Type_ = ConditionRunning then c.Status else running)
    ConditionFalse

/-- The polled closure itself. `got` is the outcome of `k8sClient.Get`, whose error is
discarded: `some o` when the call filled the polled object `inst` with the stored object `o`,
`none` when it failed and left `inst` as it was. -/
def pollRunning {K M P T S : Type} (inst : EmqxBroker K M P T S)
    (got : Option (EmqxBroker K M P T S)) : ConditionStatus :=
  runningCondition ((got.getD inst).GetStatus.Conditions)

/-- The zero-valued object `&EmqxBroker{}` the suite polls into (metadata and templates
are left abstract by choosing unit types). -/
def zeroBroker : EmqxBroker Unit Unit Unit Unit Unit :=
  { TypeMeta := (), ObjectMeta := (),
    Spec := { Replicas := none, VolumeClaimTemplates := none, Template := (),
              ServiceTemplate := () },
    Status := Status.zero }

/-! ## Plugins and `removePluginsFinalizer` -/

/-- Modelled from the spec: the lifecycle phase of a plugin resource (Pending, Loading,
Loaded, LoadFailed, Unloading); the type is declared outside the source files. -/
inductive Phase where
  | Pending
  | Loading
  | Loaded
  | LoadFailed
  | Unloading
  deriving DecidableEq, Repr

/-- Modelled from the spec: the `EmqxPlugin` type is declared outside the source files.
The suite uses its name, namespace, labels, finalizers, `Spec.PluginName`,
`Spec.Selector`, `Spec.Config` and `Status.Phase`; `DeletionRequested` stands for a set
deletion timestamp, and the spec has the manager record the failing members, the
number of unload attempts and a warning. -/
structure EmqxPlugin where
  Name : String
  Namespace : String
  Labels : List (String × String)
  Finalizers : List String
  DeletionRequested : Bool
  PluginName : String
  Selector : List (String × String)
  Config : List (String × String)
  Phase : Phase
  FailedMembers : List String
  UnloadAttempts : Nat
  Warning : Bool
  deriving DecidableEq, Repr

/-- The local `finalizer := "apps.emqx.io/finalizer"` of `removePluginsFinalizer`. -/
def finalizer : String := "apps.emqx.io/finalizer"

/-- `controllerutil.RemoveFinalizer(o, finalizer)` of controller-runtime: every
occurrence of `finalizer` is dropped from the object's finalizer list, the other
entries keep their order. -/
def RemoveFinalizer (o : EmqxPlugin) (fin : String) : EmqxPlugin :=
  { o with Finalizers := o.Finalizers.filter (fun f => f != fin) }

/-- The two calls of `k8sClient` that `removePluginsFinalizer` makes, over an abstract
platform state `σ` and error type `ε`. `List` returns `none` when the call fails (the
list object then keeps its zero value); `Update` returns the new platform state and
the call's error (`none` is Go's `nil`). -/
structure Client (σ ε : Type) where
  List : σ → String → Option (List EmqxPlugin)
  Update : σ → EmqxPlugin → σ × Option ε

/-- What a run of `removePluginsFinalizer` leaves behind: the platform state, the
`Update` calls made in order (argument and returned error), and the returned error. -/
structure RemoveResult (σ ε : Type) where
  state : σ
  calls : List (EmqxPlugin × Option ε)
  err : Option ε

/-- The loop `for _, plugin := range plugins.Items { RemoveFinalizer(&plugin, finalizer);
err := k8sClient.Update(ctx, &plugin); if err != nil { return err } }; return nil`. -/
def removeLoop {σ ε : Type} (c : Client σ ε) (fin : String) :
    σ → List EmqxPlugin → RemoveResult σ ε
  | st, [] => { state := st, calls := [], err := none }
  | st, plugin :: rest =>
    let plugin1 := RemoveFinalizer plugin fin
    match c.Update st plugin1 with
    | (st1, some err) => { state := st1, calls := [(plugin1, some err)], err := some err }
    | (st1, none) =>
      let r := removeLoop c fin st1 rest
      { state := r.state, calls := (plugin1, none) :: r.calls, err := r.err }

/-- `func removePluginsFinalizer(namespace string) error`: the result of `List` is
discarded, so an unlistable namespace leaves `plugins.Items` empty. -/
def removePluginsFinalizer {σ ε : Type} (c : Client σ ε) (st : σ) (namespace_ : String) :
    RemoveResult σ ε :=
  let items := (c.List st namespace_).getD []
  removeLoop c finalizer st items

/-! ## Status Aggregator (the engine's status computation) -/

/-- Modelled from the spec: the answer of a member's administrative interface to a
push or an unload (accepted, rejected with AdminAPIError, unreachable with
ConnectivityError); the engine's code is outside the source files. -/
inductive AdminResponse where
  | ok
  | rejected
  | unreachable
  deriving DecidableEq, Repr

/-- Modelled from the spec: one observed broker instance, as the engine (outside the
source files) sees it in a pass: identity, host and version, labels, the
platform-reported ready flag, the answer to the broker's own health check, whether it
is in a crashing or restarting state, and how its administrative interface answers a
plugin push and a plugin unload. -/
structure Member where
  Name : String
  Host : String
  Version : String
  Labels : List (String × String)
  PlatformReady : Bool
  HealthCheckOk : Bool
  Crashing : Bool
  Load : AdminResponse
  Unload : AdminResponse
  deriving DecidableEq, Repr

/-- Modelled from the spec: an instance is ready when both the platform-reported ready
flag and the application-level health check hold (Status Aggregator, outside the
source files). -/
def Member.ready (m : Member) : Bool :=
  m.PlatformReady && m.HealthCheckOk

/-- Modelled from the spec: the NodeStatus entry written for one observed instance,
tagged ready or not ready (Status Aggregator, outside the source files). -/
def Member.nodeStatus (m : Member) : NodeStatus :=
  { Node := m.Name, Host := m.Host, Version := m.Version, Healthy := m.ready }

/-- Modelled from the spec: the Status Aggregator, whose code is outside the source
files. A stateless recomputation per pass: `Replicas` mirrors the spec,
`ReadyReplicas` counts the instances passing both checks, `NodeStatuses` has one entry
per observed instance, and the Running condition is True only when
readyReplicas == replicas, replicas > 0, every NodeStatus reports healthy and no
observed instance is crashing or restarting; otherwise it is False. -/
def aggregateStatus (replicas : Int) (observed : List Member) (now : Nat) : Status :=
  let ready : Int := (observed.countP Member.ready : Nat)
  let nodes := observed.map Member.nodeStatus
  let running : Bool :=
    decide (ready = replicas) && decide (0 < replicas) &&
      nodes.all (fun n => n.Healthy) && observed.all (fun m => !m.Crashing)
  { Replicas := replicas
    ReadyReplicas := ready
    NodeStatuses := nodes
    Conditions :=
      [{ Type_ := ConditionRunning
         Status := if running then ConditionTrue else ConditionFalse
         Reason := if running then "ClusterReady" else "ClusterNotReady"
         LastTransitionTime := now }] }

/-! ## Plugin Lifecycle Manager and the finalizer gate -/

/-- Modelled from the spec: a selector matches a member when each of its key/value
pairs is among the member's labels (Plugin Lifecycle Manager, outside the source
files). -/
def selects (selector labels : List (String × String)) : Bool :=
  selector.all (fun kv => labels.contains kv)

/-- Modelled from the spec: the members a plugin currently selects. -/
def selectedMembers (p : EmqxPlugin) (members : List Member) : List Member :=
  members.filter (fun m => selects p.Selector m.Labels)

/-- Modelled from the spec: the members a load pushes to, every selected and ready
member. -/
def loadTargets (p : EmqxPlugin) (members : List Member) : List Member :=
  (selectedMembers p members).filter Member.ready

/-- `controllerutil.AddFinalizer`: the finalizer is appended unless already present. -/
def AddFinalizer (o : EmqxPlugin) (fin : String) : EmqxPlugin :=
  if o.Finalizers.contains fin then o else { o with Finalizers := o.Finalizers ++ [fin] }

/-- Modelled from the spec: one pass of the Plugin Lifecycle Manager over one plugin
resource, whose code is outside the source files; `bound` is the bounded unload attempt
count the spec leaves to the implementer.
* Marked for deletion with the finalizer present: unload is attempted on every
  currently selected member and the attempt is recorded; when no member fails, or the
  bound is reached (with a warning), the finalizer is removed; otherwise it is kept
  and the phase stays Unloading.
* Pending: the finalizer is attached and the phase becomes Loading.
* Loading, Loaded, LoadFailed: the configuration is pushed to every selected, ready
  member; Loaded when all accept, LoadFailed with the failing members otherwise. -/
def pluginPass (bound : Nat) (members : List Member) (p : EmqxPlugin) : EmqxPlugin :=
  if p.DeletionRequested then
    if p.Finalizers.contains finalizer then
      let failing := (selectedMembers p members).filter (fun m => m.Unload != AdminResponse.ok)
      let attempts := p.UnloadAttempts + 1
      if failing.isEmpty then
        { RemoveFinalizer p finalizer with
          Phase := Phase.Unloading, UnloadAttempts := attempts, FailedMembers := [] }
      else if bound ≤ attempts then
        { RemoveFinalizer p finalizer with
          Phase := Phase.Unloading, UnloadAttempts := attempts,
          FailedMembers := failing.map (fun m => m.Name), Warning := true }
      else
        { p with
          Phase := Phase.Unloading, UnloadAttempts := attempts,
          FailedMembers := failing.map (fun m => m.Name) }
    else p
  else
    match p.Phase with
    | Phase.Pending => { AddFinalizer p finalizer with Phase := Phase.Loading }
    | Phase.Unloading => p
    | _ =>
      let failing := (loadTargets p members).filter (fun m => m.Load != AdminResponse.ok)
      if failing.isEmpty then { p with Phase := Phase.Loaded, FailedMembers := [] }
      else { p with Phase := Phase.LoadFailed, FailedMembers := failing.map (fun m => m.Name) }

/-- Whether the stored plugin carries the finalizer `"apps.emqx.io/finalizer"`. -/
def carries (stored : Option EmqxPlugin) : Bool :=
  match stored with
  | some p => p.Finalizers.contains finalizer
  | none => false

/-- Modelled from the spec: the durable storage of one plugin resource (the platform,
outside the source files; `none` once the resource is physically removed) together
with the history the finalizer-safety property speaks about: whether the plugin ever
carried the finalizer, whether an unload was attempted, and whether the finalizer was
removed after an unload attempt. -/
structure World where
  stored : Option EmqxPlugin
  everCarried : Bool
  unloadAttempted : Bool
  releasedAfterUnload : Bool
  deriving DecidableEq, Repr

/-- Modelled from the spec: the world right after the plugin resource `p` was created
(durable storage is outside the source files). -/
def World.init (p : EmqxPlugin) : World :=
  { stored := some p, everCarried := carries (some p), unloadAttempted := false,
    releasedAfterUnload := false }

/-- Modelled from the spec: a write to durable storage (outside the source files).
The stored object is replaced and the history brought up to date; `attempt` says that
the write records an unload attempt. -/
def World.record (w : World) (stored1 : Option EmqxPlugin) (attempt : Bool) : World :=
  let attempted := w.unloadAttempted || attempt
  let removed := carries w.stored && !carries stored1
  { stored := stored1
    everCarried := w.everCarried || carries stored1
    unloadAttempted := attempted
    releasedAfterUnload := w.releasedAfterUnload || (removed && attempted) }

/-- Modelled from the spec: the actors of the engine and the platform that write a
plugin resource (all outside the source files): a pass of the Plugin Lifecycle
Manager, a deletion request, and the platform's physical removal. -/
inductive Event where
  | managerPass (members : List Member)
  | deleteRequest
  | platformCollect
  deriving DecidableEq, Repr

/-- Modelled from the spec: one step of the plugin resource's life. The manager's pass
and the platform's finalizer gate (a resource marked for deletion is physically
removed only once no finalizer is left) are outside the source files. A manager pass
counts as an unload attempt when the resource it writes back records one more
attempt than the resource it read. -/
def step (bound : Nat) (w : World) : Event → World
  | Event.managerPass members =>
    match w.stored with
    | some p =>
      w.record (some (pluginPass bound members p))
        (decide (p.UnloadAttempts < (pluginPass bound members p).UnloadAttempts))
    | none => w
  | Event.deleteRequest =>
    match w.stored with
    | some p => w.record (some { p with DeletionRequested := true }) false
    | none => w
  | Event.platformCollect =>
    match w.stored with
    | some p =>
      if p.DeletionRequested && p.Finalizers.isEmpty then w.record none false else w
    | none => w

/-- Modelled from the spec: the world after a sequence of events. -/
def run (bound : Nat) (w : World) (events : List Event) : World :=
  events.foldl (step bound) w

/-- Modelled from the spec: the part of one pass of the Reconcile Driver (outside the
source files) that writes status: the Status Aggregator followed by the Plugin
Lifecycle Manager, against the members observed in the pass. -/
def reconcilePass (bound : Nat) (replicas : Int) (members : List Member) (now : Nat)
    (s : Status × EmqxPlugin) : Status × EmqxPlugin :=
  (aggregateStatus replicas members now, pluginPass bound members s.2)

/-- Modelled from the spec: the state after `n` passes of the Reconcile Driver (outside
the source files) against an otherwise stable platform; the pass number serves as
the timestamp. -/
def runPasses (bound : Nat) (replicas : Int) (members : List Member) :
    Nat → Status × EmqxPlugin → Status × EmqxPlugin
  | 0, s => s
  | n + 1, s => reconcilePass bound replicas members (n + 1) (runPasses bound replicas members n s)

/-- A healthy member carrying the suite's cluster label. -/
def healthyMember (name : String) : Member :=
  { Name := name, Host := name, Version := "4.4.5", Labels := [("cluster", "emqx")],
    PlatformReady := true, HealthCheckOk := true, Crashing := false,
    Load := AdminResponse.ok, Unload := AdminResponse.ok }

/-- The three healthy members of the suite's broker cluster. -/
def threeMembers : List Member :=
  [healthyMember "emqx-0", healthyMember "emqx-1", healthyMember "emqx-2"]

/-- The plugin the suite creates for the broker cluster, as created (Pending). -/
def lwm2m : EmqxPlugin :=
  { Name := "emqx-lwm2m", Namespace := "broker", Labels := [("cluster", "emqx")],
    Finalizers := [], DeletionRequested := false, PluginName := "emqx_lwm2m",
    Selector := [("cluster", "emqx")],
    Config :=
      [("lwm2m.lifetime_min", "1s"), ("lwm2m.lifetime_max", "86400s"),
       ("lwm2m.bind.udp.1", "0.0.0.0:5683"), ("lwm2m.bind.udp.2", "0.0.0.0:5684"),
       ("lwm2m.bind.dtls.1", "0.0.0.0:5685"), ("lwm2m.bind.dtls.2", "0.0.0.0:5686"),
       ("lwm2m.xml_dir", "/opt/emqx/etc/lwm2m_xml")],
    Phase := Phase.Pending, FailedMembers := [], UnloadAttempts := 0, Warning := false }

/-! ## Fixtures -/

/-- A status with one ready replica out of zero. -/
def overReadyStatus : Status :=
  { Replicas := 0, ReadyReplicas := 1, NodeStatuses := [], Conditions := [] }

/-- A status with three ready replicas out of three. -/
def threeOfThree : Status :=
  { Replicas := 3, ReadyReplicas := 3, NodeStatuses := [], Conditions := [] }

/-- The loop body of the Running-condition lookup, started from an arbitrary value of
the variable `running`. -/
def runningFrom (running : ConditionStatus) (conditions : List Condition) : ConditionStatus :=
  conditions.foldl
    (fun running c => if c.Type_ = ConditionRunning then c.Status else running) running

/-- A Running condition with status True. -/
def condRunningTrue : Condition :=
  { Type_ := ConditionRunning, Status := ConditionTrue, Reason := "ClusterReady",
    LastTransitionTime := 1 }

/-- A Running condition with status False. -/
def condRunningFalse : Condition :=
  { Type_ := ConditionRunning, Status := ConditionFalse, Reason := "ClusterNotReady",
    LastTransitionTime := 2 }

/-- A condition of another type. -/
def condOther : Condition :=
  { Type_ := "PluginInitialized", Status := ConditionTrue, Reason := "PluginInitialized",
    LastTransitionTime := 3 }

/-- A plugin carrying the suite's finalizer and one other finalizer. -/
def pluginNamed (name : String) : EmqxPlugin :=
  { lwm2m with Name := name, Finalizers := [finalizer, "other.io/keep"], Phase := Phase.Loaded }

/-- A platform that lists `items` and whose `Update` rejects the plugin named `"p2"`;
its state is the list of objects written so far. -/
def rejectingClient (items : List EmqxPlugin) : Client (List EmqxPlugin) String :=
  { List := fun _ ns => some (items.filter (fun p => p.Namespace == ns))
    Update := fun st p => if p.Name = "p2" then (st, some "conflict") else (st ++ [p], none) }

/-- The history invariant of the finalizer gate: a stored plugin that carries the
finalizer is known to have carried it; a plugin that carried it and no longer does
had it released after an unload attempt; and a release after an unload attempt
implies that an unload was attempted. -/
def World.Inv (w : World) : Prop :=
  (carries w.stored = true → w.everCarried = true) ∧
  (w.everCarried = true → carries w.stored = false → w.releasedAfterUnload = true) ∧
  (w.releasedAfterUnload = true → w.unloadAttempted = true)

/-- The suite's plugin after the manager unloaded it and released the finalizer. -/
def lwm2mReleased : EmqxPlugin :=
  { lwm2m with
    Finalizers := [], DeletionRequested := true, Phase := Phase.Unloading,
    UnloadAttempts := 1 }

/-- A life in which the manager attaches the finalizer and loads the plugin, the
plugin is deleted and the manager unloads it and releases the finalizer. -/
def managedLife : List Event :=
  [Event.managerPass threeMembers, Event.managerPass threeMembers, Event.deleteRequest,
   Event.managerPass threeMembers]

/-- A life in which the manager attaches the finalizer and loads the plugin and the
plugin is then marked for deletion, before any manager pass has unloaded it. -/
def guardedLife : List Event :=
  [Event.managerPass threeMembers, Event.managerPass threeMembers, Event.deleteRequest]

/-- The suite's plugin, Loaded, carrying the finalizer and marked for deletion. -/
def lwm2mGuarded : EmqxPlugin :=
  { lwm2m with Finalizers := [finalizer], DeletionRequested := true, Phase := Phase.Loaded }

/-- What the scenario assumes of the platform: every observed member is ready, answers
its health check, is not crashing, accepts a plugin push and carries the cluster's
labels. -/
def Healthy (labels : List (String × String)) (members : List Member) : Prop :=
  ∀ m ∈ members, m.PlatformReady = true ∧ m.HealthCheckOk = true ∧ m.Crashing = false ∧
    m.Load = AdminResponse.ok ∧ m.Labels = labels

/-! ## Theorems: the accessors of `EmqxBroker` -/

section AccessorTheorems

variable {K M P T S : Type}

/-- C1: for every broker and every replica count `r` (every 32-bit value is such an
`r`, zero included), `GetReplicas` after `SetReplicas r` is non-nil and points to
exactly `r`; zero is stored as zero and differs from the unset (nil) count. -/
theorem getReplicas_setReplicas (b : EmqxBroker K M P T S) (r : Int) :
    (b.SetReplicas r).GetReplicas = some r ∧
    (b.SetReplicas r).GetReplicas ≠ none ∧
    (b.SetReplicas 0).GetReplicas = some 0 ∧
    (b.SetReplicas 0).GetReplicas ≠ none := by
  refine ⟨rfl, ?_, rfl, ?_⟩ <;> simp [EmqxBroker.SetReplicas, EmqxBroker.GetReplicas]

/-- C2: each get/set accessor pair is a round trip; a nil or empty list of volume
claim templates is returned as it was given. -/
theorem get_set_roundtrip (b : EmqxBroker K M P T S) (v : Option (List P)) (t : T) (s : S)
    (st : Status) :
    (b.SetVolumeClaimTemplates v).GetVolumeClaimTemplates = v ∧
    (b.SetVolumeClaimTemplates none).GetVolumeClaimTemplates = none ∧
    (b.SetVolumeClaimTemplates (some [])).GetVolumeClaimTemplates = some [] ∧
    (b.SetTemplate t).GetTemplate = t ∧
    (b.SetServiceTemplate s).GetServiceTemplate = s ∧
    (b.SetStatus st).GetStatus = st :=
  ⟨rfl, rfl, rfl, rfl, rfl, rfl⟩

/-- C3: the replica count defaults to 3. For every broker whose spec does not set
replicas, the count read through `GetReplicas` once the object is defaulted is 3, and
it is the `Replicas` of the status the engine computes from it; a count that the spec
does set is kept; a defaulted broker always has a count. -/
theorem getReplicas_default (b : EmqxBroker K M P T S) (observed : List Member) (now : Nat) :
    (b.Spec.Replicas = none → b.Default.GetReplicas = some 3) ∧
    (b.Spec.Replicas = none → ∀ r, b.Default.GetReplicas = some r →
      (aggregateStatus r observed now).Replicas = 3) ∧
    (∀ r, b.Spec.Replicas = some r → b.Default.GetReplicas = some r) ∧
    b.Default.GetReplicas ≠ none ∧
    b.Default.Default = b.Default := by
  cases hr : b.Spec.Replicas with
  | none =>
    have hd : b.Default = b.SetReplicas kubebuilderDefaultReplicas := by
      simp [EmqxBroker.Default, EmqxBroker.GetReplicas, hr]
    have hget : b.Default.GetReplicas = some 3 := by
      rw [hd]
      rfl
    refine ⟨fun _ => hget, fun _ r h => ?_, fun r h => by simp at h, by simp [hget], ?_⟩
    · rw [hget] at h
      obtain rfl : (3 : Int) = r := Option.some.inj h
      rfl
    · rw [hd]
      rfl
  | some r0 =>
    have hd : b.Default = b := by
      simp [EmqxBroker.Default, EmqxBroker.GetReplicas, hr]
    refine ⟨fun h => by simp at h, fun h => by simp at h, fun r h => ?_, ?_, ?_⟩
    · rw [hd]
      exact hr.trans h
    · rw [hd]
      simp [EmqxBroker.GetReplicas, hr]
    · rw [hd, hd]

/-- C5 (as amended): `SetStatus` stores the status unchanged and unvalidated: for every
broker and every status, the status read back is the status given, so it satisfies
readyReplicas ≤ replicas exactly when the status given does. -/
theorem getStatus_setStatus_le (b : EmqxBroker K M P T S) (st : Status) :
    (b.SetStatus st).GetStatus = st ∧
    ((b.SetStatus st).GetStatus.ReadyReplicas ≤ (b.SetStatus st).GetStatus.Replicas ↔
      st.ReadyReplicas ≤ st.Replicas) :=
  ⟨rfl, Iff.rfl⟩

end AccessorTheorems

/-- C3, witness: a broker built with only an image reads 3 once defaulted, and the
status computed from it for three healthy members has `Replicas` 3. -/
theorem getReplicas_default_witness :
    imageOnlyBroker.Spec.Replicas = none ∧ imageOnlyBroker.Default.GetReplicas = some 3 ∧
    (aggregateStatus 3 threeMembers 1).Replicas = 3 :=
  have h := getReplicas_default imageOnlyBroker threeMembers 1
  ⟨rfl, h.1 rfl, h.2.1 rfl 3 (h.1 rfl)⟩

/-- C5, witness: three ready replicas out of three are read back as given and satisfy
the bound. -/
theorem getStatus_setStatus_le_witness :
    threeOfThree.ReadyReplicas ≤ threeOfThree.Replicas ∧
    (zeroBroker.SetStatus threeOfThree).GetStatus = threeOfThree ∧
    (zeroBroker.SetStatus threeOfThree).GetStatus.ReadyReplicas
      ≤ (zeroBroker.SetStatus threeOfThree).GetStatus.Replicas :=
  ⟨by decide, (getStatus_setStatus_le zeroBroker threeOfThree).1,
    (getStatus_setStatus_le zeroBroker threeOfThree).2.2 (by decide)⟩

/-- C5, counterexample: after `SetStatus` with one ready replica out of zero,
`GetStatus` returns a status with readyReplicas > replicas. -/
theorem getStatus_setStatus_not_le :
    ¬ ((zeroBroker.SetStatus overReadyStatus).GetStatus.ReadyReplicas
        ≤ (zeroBroker.SetStatus overReadyStatus).GetStatus.Replicas) := by
  decide

/-- C8: each setter changes only its own field (the other spec fields, the status and
the object metadata are untouched), setters on different fields commute, and setting
a field twice keeps only the last value. -/
theorem setters_frame {K M P T S : Type} (b : EmqxBroker K M P T S) (r r1 : Int)
    (v v1 : Option (List P)) (t t1 : T) (s s1 : S) (st st1 : Status) :
    -- SetReplicas
    ((b.SetReplicas r).GetVolumeClaimTemplates = b.GetVolumeClaimTemplates ∧
     (b.SetReplicas r).GetTemplate = b.GetTemplate ∧
     (b.SetReplicas r).GetServiceTemplate = b.GetServiceTemplate ∧
     (b.SetReplicas r).GetStatus = b.GetStatus ∧
     (b.SetReplicas r).TypeMeta = b.TypeMeta ∧
     (b.SetReplicas r).ObjectMeta = b.ObjectMeta) ∧
    -- SetVolumeClaimTemplates
    ((b.SetVolumeClaimTemplates v).GetReplicas = b.GetReplicas ∧
     (b.SetVolumeClaimTemplates v).GetTemplate = b.GetTemplate ∧
     (b.SetVolumeClaimTemplates v).GetServiceTemplate = b.GetServiceTemplate ∧
     (b.SetVolumeClaimTemplates v).GetStatus = b.GetStatus ∧
     (b.SetVolumeClaimTemplates v).TypeMeta = b.TypeMeta ∧
     (b.SetVolumeClaimTemplates v).ObjectMeta = b.ObjectMeta) ∧
    -- SetTemplate
    ((b.SetTemplate t).GetReplicas = b.GetReplicas ∧
     (b.SetTemplate t).GetVolumeClaimTemplates = b.GetVolumeClaimTemplates ∧
     (b.SetTemplate t).GetServiceTemplate = b.GetServiceTemplate ∧
     (b.SetTemplate t).GetStatus = b.GetStatus ∧
     (b.SetTemplate t).TypeMeta = b.TypeMeta ∧
     (b.SetTemplate t).ObjectMeta = b.ObjectMeta) ∧
    -- SetServiceTemplate
    ((b.SetServiceTemplate s).GetReplicas = b.GetReplicas ∧
     (b.SetServiceTemplate s).GetVolumeClaimTemplates = b.GetVolumeClaimTemplates ∧
     (b.SetServiceTemplate s).GetTemplate = b.GetTemplate ∧
     (b.SetServiceTemplate s).GetStatus = b.GetStatus ∧
     (b.SetServiceTemplate s).TypeMeta = b.TypeMeta ∧
     (b.SetServiceTemplate s).ObjectMeta = b.ObjectMeta) ∧
    -- SetStatus
    ((b.SetStatus st).GetReplicas = b.GetReplicas ∧
     (b.SetStatus st).GetVolumeClaimTemplates = b.GetVolumeClaimTemplates ∧
     (b.SetStatus st).GetTemplate = b.GetTemplate ∧
     (b.SetStatus st).GetServiceTemplate = b.GetServiceTemplate ∧
     (b.SetStatus st).Spec = b.Spec ∧
     (b.SetStatus st).TypeMeta = b.TypeMeta ∧
     (b.SetStatus st).ObjectMeta = b.ObjectMeta) ∧
    -- setters on two different fields commute
    ((b.SetReplicas r).SetVolumeClaimTemplates v = (b.SetVolumeClaimTemplates v).SetReplicas r ∧
     (b.SetReplicas r).SetTemplate t = (b.SetTemplate t).SetReplicas r ∧
     (b.SetReplicas r).SetServiceTemplate s = (b.SetServiceTemplate s).SetReplicas r ∧
     (b.SetReplicas r).SetStatus st = (b.SetStatus st).SetReplicas r ∧
     (b.SetVolumeClaimTemplates v).SetTemplate t = (b.SetTemplate t).SetVolumeClaimTemplates v ∧
     (b.SetVolumeClaimTemplates v).SetServiceTemplate s
       = (b.SetServiceTemplate s).SetVolumeClaimTemplates v ∧
     (b.SetVolumeClaimTemplates v).SetStatus st = (b.SetStatus st).SetVolumeClaimTemplates v ∧
     (b.SetTemplate t).SetServiceTemplate s = (b.SetServiceTemplate s).SetTemplate t ∧
     (b.SetTemplate t).SetStatus st = (b.SetStatus st).SetTemplate t ∧
     (b.SetServiceTemplate s).SetStatus st = (b.SetStatus st).SetServiceTemplate s) ∧
    -- setting the same field twice keeps only the last value
    ((b.SetReplicas r).SetReplicas r1 = b.SetReplicas r1 ∧
     (b.SetVolumeClaimTemplates v).SetVolumeClaimTemplates v1 = b.SetVolumeClaimTemplates v1 ∧
     (b.SetTemplate t).SetTemplate t1 = b.SetTemplate t1 ∧
     (b.SetServiceTemplate s).SetServiceTemplate s1 = b.SetServiceTemplate s1 ∧
     (b.SetStatus st).SetStatus st1 = b.SetStatus st1) := by
  refine ⟨⟨?_, ?_, ?_, ?_, ?_, ?_⟩, ⟨?_, ?_, ?_, ?_, ?_, ?_⟩, ⟨?_, ?_, ?_, ?_, ?_, ?_⟩,
    ⟨?_, ?_, ?_, ?_, ?_, ?_⟩, ⟨?_, ?_, ?_, ?_, ?_, ?_, ?_⟩,
    ⟨?_, ?_, ?_, ?_, ?_, ?_, ?_, ?_, ?_, ?_⟩, ⟨?_, ?_, ?_, ?_, ?_⟩⟩ <;> rfl

/-! ## Theorems: the Running-condition lookup -/

theorem runningFrom_cons (acc : ConditionStatus) (c : Condition) (cs : List Condition) :
    runningFrom acc (c :: cs)
      = runningFrom (if c.Type_ = ConditionRunning then c.Status else acc) cs := rfl

theorem runningFrom_append (acc : ConditionStatus) (xs ys : List Condition) :
    runningFrom acc (xs ++ ys) = runningFrom (runningFrom acc xs) ys := by
  simp [runningFrom, List.foldl_append]

theorem runningFrom_others (acc : ConditionStatus) (cs : List Condition)
    (h : ∀ c ∈ cs, c.Type_ ≠ ConditionRunning) : runningFrom acc cs = acc := by
  induction cs generalizing acc with
  | nil => rfl
  | cons c cs ih =>
    have hc : c.Type_ ≠ ConditionRunning := h c (List.mem_cons_self _ _)
    rw [runningFrom_cons, if_neg hc]
    exact ih acc (fun d hd => h d (List.mem_cons_of_mem _ hd))

theorem runningFrom_filter (acc : ConditionStatus) (cs : List Condition) :
    runningFrom acc cs
      = match (cs.filter (fun c => decide (c.Type_ = ConditionRunning))).getLast? with
        | some c => c.Status
        | none => acc := by
  induction cs generalizing acc with
  | nil => rfl
  | cons c cs ih =>
    rw [runningFrom_cons, ih]
    by_cases hc : c.Type_ = ConditionRunning
    · rw [if_pos hc, List.filter_cons_of_pos (by simpa using hc)]
      cases hf : cs.filter (fun c => decide (c.Type_ = ConditionRunning)) with
      | nil => simp
      | cons d ds =>
        rw [List.getLast?_cons_cons, List.getLast?_eq_getLast (d :: ds) (List.cons_ne_nil d ds)]
    · rw [if_neg hc, List.filter_cons_of_neg (by simpa using hc)]

theorem runningCondition_eq_runningFrom (cs : List Condition) :
    runningCondition cs = runningFrom ConditionFalse cs := rfl

/-- C9: the lookup returns ConditionFalse when no condition has type Running (the
empty list and the zero-valued object left by a failed Get included), and otherwise
the Status of the last condition of type Running in list order; conditions of other
types do not affect the result. -/
theorem runningCondition_lookup (cs pre post : List Condition) (c : Condition) :
    (runningCondition cs
      = match (cs.filter (fun c => decide (c.Type_ = ConditionRunning))).getLast? with
        | some c => c.Status
        | none => ConditionFalse) ∧
    ((∀ d ∈ cs, d.Type_ ≠ ConditionRunning) → runningCondition cs = ConditionFalse) ∧
    runningCondition [] = ConditionFalse ∧
    pollRunning zeroBroker none = ConditionFalse ∧
    (c.Type_ = ConditionRunning → (∀ d ∈ post, d.Type_ ≠ ConditionRunning) →
      runningCondition (pre ++ c :: post) = c.Status) ∧
    runningCondition cs
      = runningCondition (cs.filter (fun c => decide (c.Type_ = ConditionRunning))) := by
  refine ⟨runningFrom_filter _ cs, runningFrom_others _ cs, rfl, rfl, ?_, ?_⟩
  · intro hc hpost
    rw [runningCondition_eq_runningFrom, runningFrom_append, runningFrom_cons, if_pos hc]
    exact runningFrom_others _ post hpost
  · rw [runningCondition_eq_runningFrom, runningCondition_eq_runningFrom,
      runningFrom_filter, runningFrom_filter, List.filter_filter]
    simp

/-- C9, witness: Running=False, another type, Running=True, another type: the lookup
returns the status of the last Running condition, True; and a list holding only
another type gives False. -/
theorem runningCondition_lookup_witness :
    (condRunningTrue.Type_ = ConditionRunning ∧
      (∀ d ∈ [condOther], d.Type_ ≠ ConditionRunning) ∧
      runningCondition ([condRunningFalse, condOther] ++ condRunningTrue :: [condOther])
        = condRunningTrue.Status) ∧
    runningCondition [condOther] = ConditionFalse :=
  have hother : ∀ d ∈ [condOther], d.Type_ ≠ ConditionRunning := by
    intro d hd
    rw [List.mem_singleton] at hd
    subst hd
    decide
  ⟨⟨rfl, hother,
    (runningCondition_lookup [] [condRunningFalse, condOther] [condOther]
      condRunningTrue).2.2.2.2.1 rfl hother⟩,
   (runningCondition_lookup [condOther] [] [] condOther).2.1 hother⟩

/-! ## Theorems: `removePluginsFinalizer` -/

theorem removeLoop_nil {σ ε : Type} (c : Client σ ε) (fin : String) (st : σ) :
    removeLoop c fin st [] = { state := st, calls := [], err := none } := rfl

/-- The shape of a run of the loop: either every listed plugin was updated
successfully and nil is returned, or the updates stop at the first failing one, whose
error is returned. -/
theorem removeLoop_shape {σ ε : Type} (c : Client σ ε) (fin : String) (st : σ)
    (items : List EmqxPlugin) :
    ((removeLoop c fin st items).err = none ∧
      (removeLoop c fin st items).calls
        = items.map (fun q => (RemoveFinalizer q fin, none))) ∨
    (∃ e pre p post, (removeLoop c fin st items).err = some e ∧
      items = pre ++ p :: post ∧
      (removeLoop c fin st items).calls
        = pre.map (fun q => (RemoveFinalizer q fin, none))
            ++ [(RemoveFinalizer p fin, some e)]) := by
  induction items generalizing st with
  | nil => exact Or.inl ⟨rfl, rfl⟩
  | cons p rest ih =>
    rcases hu : c.Update st (RemoveFinalizer p fin) with ⟨st1, _ | err⟩
    · have hrun : removeLoop c fin st (p :: rest)
          = { state := (removeLoop c fin st1 rest).state,
              calls := (RemoveFinalizer p fin, none) :: (removeLoop c fin st1 rest).calls,
              err := (removeLoop c fin st1 rest).err } := by
        simp only [removeLoop, hu]
      rcases ih st1 with ⟨hnone, hcalls⟩ | ⟨e, pre, q, post, herr, hitems, hcalls⟩
      · exact Or.inl ⟨by rw [hrun]; exact hnone, by rw [hrun]; simp [hcalls]⟩
      · refine Or.inr ⟨e, p :: pre, q, post, by rw [hrun]; exact herr, by simp [hitems], ?_⟩
        rw [hrun]
        simp [hcalls]
    · have hrun : removeLoop c fin st (p :: rest)
          = { state := st1, calls := [(RemoveFinalizer p fin, some err)], err := some err } := by
        simp only [removeLoop, hu]
      exact Or.inr ⟨err, [], p, rest, by rw [hrun], rfl, by rw [hrun]; rfl⟩

theorem removeFinalizer_not_mem (p : EmqxPlugin) (fin : String) :
    fin ∉ (RemoveFinalizer p fin).Finalizers := by
  simp [RemoveFinalizer, List.mem_filter]

/-- C10: `removePluginsFinalizer` updates the listed plugins in order, each with the
finalizer `"apps.emqx.io/finalizer"` (and no other finalizer) removed first; it
returns nil exactly when every update it makes succeeds, in which case every listed
plugin was updated (nothing is updated for an empty or unlistable list); otherwise it
returns the error of the first failing update and updates no later plugin. -/
theorem removePluginsFinalizer_spec {σ ε : Type} (c : Client σ ε) (st : σ) (ns : String)
    (p : EmqxPlugin) (f : String) (e : ε) :
    (∃ k, (removePluginsFinalizer c st ns).calls.map Prod.fst
        = (((c.List st ns).getD []).take k).map (fun q => RemoveFinalizer q finalizer)) ∧
    (∀ call ∈ (removePluginsFinalizer c st ns).calls, finalizer ∉ call.1.Finalizers) ∧
    (finalizer ∉ (RemoveFinalizer p finalizer).Finalizers ∧
      (f ≠ finalizer → (f ∈ (RemoveFinalizer p finalizer).Finalizers ↔ f ∈ p.Finalizers)) ∧
      (RemoveFinalizer p finalizer).Finalizers.Sublist p.Finalizers ∧
      { RemoveFinalizer p finalizer with Finalizers := p.Finalizers } = p) ∧
    ((removePluginsFinalizer c st ns).err = none ↔
      ∀ call ∈ (removePluginsFinalizer c st ns).calls, call.2 = none) ∧
    ((removePluginsFinalizer c st ns).err = none →
      (removePluginsFinalizer c st ns).calls.map Prod.fst
        = ((c.List st ns).getD []).map (fun q => RemoveFinalizer q finalizer)) ∧
    ((c.List st ns = none ∨ c.List st ns = some []) →
      (removePluginsFinalizer c st ns).err = none ∧
      (removePluginsFinalizer c st ns).calls = [] ∧
      (removePluginsFinalizer c st ns).state = st) ∧
    ((removePluginsFinalizer c st ns).err = some e →
      ∃ pre q post, (c.List st ns).getD [] = pre ++ q :: post ∧
        (removePluginsFinalizer c st ns).calls
          = pre.map (fun q => (RemoveFinalizer q finalizer, none))
              ++ [(RemoveFinalizer q finalizer, some e)]) := by
  have hdef : removePluginsFinalizer c st ns
      = removeLoop c finalizer st ((c.List st ns).getD []) := rfl
  rw [hdef]
  generalize hgen : (c.List st ns).getD [] = items
  have hshape := removeLoop_shape c finalizer st items
  refine ⟨?_, ?_, ⟨removeFinalizer_not_mem p finalizer, ?_, List.filter_sublist _, rfl⟩,
    ?_, ?_, ?_, ?_⟩
  · rcases hshape with ⟨_, hcalls⟩ | ⟨e1, pre, q, post, _, hitems, hcalls⟩
    · exact ⟨items.length, by simp [hcalls]⟩
    · refine ⟨pre.length + 1, ?_⟩
      have htake : (pre ++ q :: post).take (pre.length + 1) = pre ++ [q] := by
        rw [List.take_append_eq_append_take, List.take_of_length_le (Nat.le_succ _)]
        simp
      rw [hcalls, hitems, htake]
      simp
  · intro call hcall
    rcases hshape with ⟨_, hcalls⟩ | ⟨e1, pre, q, post, _, _, hcalls⟩
    · rw [hcalls, List.mem_map] at hcall
      obtain ⟨q, _, rfl⟩ := hcall
      exact removeFinalizer_not_mem q finalizer
    · rw [hcalls, List.mem_append, List.mem_map, List.mem_singleton] at hcall
      rcases hcall with ⟨q1, _, rfl⟩ | rfl
      · exact removeFinalizer_not_mem q1 finalizer
      · exact removeFinalizer_not_mem q finalizer
  · intro hf
    simp [RemoveFinalizer, List.mem_filter, hf]
  · rcases hshape with ⟨hnone, hcalls⟩ | ⟨e1, pre, q, post, herr, _, hcalls⟩
    · refine ⟨fun _ call hcall => ?_, fun _ => hnone⟩
      rw [hcalls, List.mem_map] at hcall
      obtain ⟨q, _, rfl⟩ := hcall
      rfl
    · refine ⟨fun h => ?_, fun h => ?_⟩
      · rw [herr] at h
        exact absurd h (by simp)
      · have := h (RemoveFinalizer q finalizer, some e1) (by rw [hcalls]; simp)
        exact absurd this (by simp)
  · intro hnone
    rcases hshape with ⟨_, hcalls⟩ | ⟨e1, pre, q, post, herr, _, _⟩
    · simp [hcalls]
    · rw [herr] at hnone
      exact absurd hnone (by simp)
  · intro hlist
    have hitems : items = [] := by
      rcases hlist with h | h <;> rw [← hgen, h] <;> rfl
    subst hitems
    exact ⟨rfl, rfl, rfl⟩
  · intro herr
    rcases hshape with ⟨hnone, _⟩ | ⟨e1, pre, q, post, herr1, hitems, hcalls⟩
    · rw [hnone] at herr
      exact absurd herr (by simp)
    · rw [herr1] at herr
      obtain rfl : e1 = e := Option.some.inj herr
      exact ⟨pre, q, post, hitems, hcalls⟩

/-- C10, witness: with plugins p1, p2, p3 listed and the update of p2 rejected, the
error of p2 is returned after p1 and p2 were updated and p3 was not; with p1 and p3
listed, nil is returned and both were updated; the other finalizer is kept. -/
theorem removePluginsFinalizer_spec_witness :
    ("other.io/keep" ≠ finalizer ∧
      ("other.io/keep" ∈ (RemoveFinalizer (pluginNamed "p1") finalizer).Finalizers
        ↔ "other.io/keep" ∈ (pluginNamed "p1").Finalizers)) ∧
    ((removePluginsFinalizer
          (rejectingClient [pluginNamed "p1", pluginNamed "p2", pluginNamed "p3"])
          [] "broker").err = some "conflict" ∧
      ∃ pre q post,
        ((rejectingClient [pluginNamed "p1", pluginNamed "p2", pluginNamed "p3"]).List
            [] "broker").getD [] = pre ++ q :: post ∧
        (removePluginsFinalizer
            (rejectingClient [pluginNamed "p1", pluginNamed "p2", pluginNamed "p3"])
            [] "broker").calls
          = pre.map (fun q => (RemoveFinalizer q finalizer, none))
              ++ [(RemoveFinalizer q finalizer, some "conflict")]) ∧
    ((removePluginsFinalizer (rejectingClient [pluginNamed "p1", pluginNamed "p3"])
          [] "broker").err = none ∧
      (removePluginsFinalizer (rejectingClient [pluginNamed "p1", pluginNamed "p3"])
          [] "broker").calls.map Prod.fst
        = (((rejectingClient [pluginNamed "p1", pluginNamed "p3"]).List
            [] "broker").getD []).map (fun q => RemoveFinalizer q finalizer)) :=
  ⟨⟨by decide,
    (removePluginsFinalizer_spec (rejectingClient []) [] "broker" (pluginNamed "p1")
      "other.io/keep" "conflict").2.2.1.2.1 (by decide)⟩,
   ⟨by decide,
    (removePluginsFinalizer_spec
      (rejectingClient [pluginNamed "p1", pluginNamed "p2", pluginNamed "p3"]) [] "broker"
      (pluginNamed "p1") "other.io/keep" "conflict").2.2.2.2.2.2 (by decide)⟩,
   ⟨by decide,
    (removePluginsFinalizer_spec (rejectingClient [pluginNamed "p1", pluginNamed "p3"])
      [] "broker" (pluginNamed "p1") "other.io/keep" "conflict").2.2.2.2.1 (by decide)⟩⟩

/-! ## Theorems: the status the engine writes -/

theorem conditionFalse_ne_conditionTrue : ConditionFalse ≠ ConditionTrue := by decide

/-- The Running condition looked up in an aggregated status is True exactly when the
aggregator's four requirements hold. -/
theorem runningCondition_aggregateStatus (replicas : Int) (observed : List Member) (now : Nat) :
    runningCondition (aggregateStatus replicas observed now).Conditions = ConditionTrue ↔
      ((observed.countP Member.ready : Nat) : Int) = replicas ∧ 0 < replicas ∧
        (∀ m ∈ observed, m.ready = true) ∧ (∀ m ∈ observed, m.Crashing = false) := by
  have hlookup : ∀ c : Condition, c.Type_ = ConditionRunning →
      runningCondition [c] = c.Status := by
    intro c hc
    simp [runningCondition, hc]
  unfold aggregateStatus
  simp only []
  rw [hlookup _ rfl]
  simp only []
  constructor
  · intro h
    split at h
    · rename_i hrun
      simp only [Bool.and_eq_true, decide_eq_true_eq, List.all_eq_true, List.mem_map,
        Bool.not_eq_true', forall_exists_index, and_imp, forall_apply_eq_imp_iff₂,
        Member.nodeStatus] at hrun
      exact ⟨hrun.1.1.1, hrun.1.1.2, hrun.1.2, hrun.2⟩
    · exact absurd h conditionFalse_ne_conditionTrue
  · rintro ⟨h1, h2, h3, h4⟩
    rw [if_pos]
    simp only [Bool.and_eq_true, decide_eq_true_eq, List.all_eq_true, List.mem_map,
      Bool.not_eq_true', forall_exists_index, and_imp, forall_apply_eq_imp_iff₂,
      Member.nodeStatus]
    exact ⟨⟨⟨h1, h2⟩, h3⟩, h4⟩

/-- C4: in every status the engine writes and a broker then holds, the Running
condition is True only if readyReplicas == replicas, replicas > 0, every NodeStatus
reports healthy and there is one NodeStatus per observed instance; hence the number of
NodeStatuses equals Replicas. -/
theorem running_true_only_when_ready {K M P T S : Type} (b : EmqxBroker K M P T S)
    (replicas : Int) (observed : List Member) (now : Nat)
    (h : runningCondition
        (b.SetStatus (aggregateStatus replicas observed now)).GetStatus.Conditions
          = ConditionTrue) :
    (b.SetStatus (aggregateStatus replicas observed now)).GetStatus.ReadyReplicas
      = (b.SetStatus (aggregateStatus replicas observed now)).GetStatus.Replicas ∧
    0 < (b.SetStatus (aggregateStatus replicas observed now)).GetStatus.Replicas ∧
    (∀ n ∈ (b.SetStatus (aggregateStatus replicas observed now)).GetStatus.NodeStatuses,
      n.Healthy = true) ∧
    (b.SetStatus (aggregateStatus replicas observed now)).GetStatus.NodeStatuses.length
      = observed.length ∧
    ((b.SetStatus (aggregateStatus replicas observed now)).GetStatus.NodeStatuses.length : Int)
      = (b.SetStatus (aggregateStatus replicas observed now)).GetStatus.Replicas := by
  have hget : (b.SetStatus (aggregateStatus replicas observed now)).GetStatus
      = aggregateStatus replicas observed now := rfl
  rw [hget] at h ⊢
  obtain ⟨h1, h2, h3, _⟩ := (runningCondition_aggregateStatus replicas observed now).1 h
  have hcount : observed.countP Member.ready = observed.length :=
    List.countP_eq_length.2 (fun m hm => h3 m hm)
  refine ⟨h1, h2, ?_, ?_, ?_⟩
  · intro n hn
    simp only [aggregateStatus, List.mem_map] at hn
    obtain ⟨m, hm, rfl⟩ := hn
    exact h3 m hm
  · simp [aggregateStatus]
  · have hlen : (aggregateStatus replicas observed now).NodeStatuses.length
        = observed.length := by simp [aggregateStatus]
    rw [hlen, ← hcount]
    exact h1

/-- C4, witness: the suite's numbers, three replicas and three healthy members give
Running True with 3, 3 and 3. -/
theorem running_true_only_when_ready_witness :
    runningCondition (zeroBroker.SetStatus (aggregateStatus 3 threeMembers 1)).GetStatus.Conditions
      = ConditionTrue ∧
    (zeroBroker.SetStatus (aggregateStatus 3 threeMembers 1)).GetStatus.ReadyReplicas = 3 ∧
    (zeroBroker.SetStatus (aggregateStatus 3 threeMembers 1)).GetStatus.Replicas = 3 ∧
    (zeroBroker.SetStatus (aggregateStatus 3 threeMembers 1)).GetStatus.NodeStatuses.length = 3 :=
  have h := running_true_only_when_ready zeroBroker 3 threeMembers 1 (by decide)
  ⟨by decide, h.1.trans rfl, rfl, h.2.2.2.1.trans rfl⟩

/-! ## Theorems: the finalizer gate -/

theorem carries_some (p : EmqxPlugin) :
    carries (some p) = p.Finalizers.contains finalizer := rfl

/-- A manager pass drops the finalizer only when it records an unload attempt. -/
theorem pluginPass_drops_only_on_unload (bound : Nat) (members : List Member) (p : EmqxPlugin)
    (hbefore : carries (some p) = true)
    (hafter : carries (some (pluginPass bound members p)) = false) :
    p.UnloadAttempts < (pluginPass bound members p).UnloadAttempts := by
  rw [carries_some] at hbefore hafter
  by_cases hdel : p.DeletionRequested = true
  · unfold pluginPass
    rw [if_pos hdel, if_pos hbefore]
    dsimp only
    split
    · exact Nat.lt_succ_self _
    · split <;> exact Nat.lt_succ_self _
  · exfalso
    have hkeep : (pluginPass bound members p).Finalizers.contains finalizer = true := by
      unfold pluginPass
      rw [if_neg hdel]
      split
      · simp only [AddFinalizer, hbefore, if_true]
      · exact hbefore
      · dsimp only
        split <;> exact hbefore
    rw [hkeep] at hafter
    exact absurd hafter (by simp)

theorem World.init_inv (p : EmqxPlugin) : (World.init p).Inv := by
  refine ⟨fun h => h, fun h1 h2 => ?_, fun h => ?_⟩
  · simp only [World.init] at h1 h2
    rw [h1] at h2
    exact absurd h2 (by simp)
  · simp [World.init] at h

/-- Recording a write keeps the invariant when a dropped finalizer is accounted for by
an unload attempt. -/
theorem World.record_inv (w : World) (stored1 : Option EmqxPlugin) (attempt : Bool)
    (hw : w.Inv)
    (hdrop : carries w.stored = true → carries stored1 = false →
      (w.unloadAttempted || attempt) = true) :
    (w.record stored1 attempt).Inv := by
  obtain ⟨h1, h2, h3⟩ := hw
  refine ⟨?_, ?_, ?_⟩
  · intro h
    simp only [World.record, Bool.or_eq_true] at h ⊢
    exact Or.inr h
  · intro hever hnow
    simp only [World.record, Bool.or_eq_true, Bool.and_eq_true, Bool.not_eq_true'] at hever hnow ⊢
    have hever1 : w.everCarried = true := by
      rcases hever with h | h
      · exact h
      · rw [hnow] at h
        exact absurd h (by simp)
    by_cases hc : carries w.stored = true
    · have hd := hdrop hc hnow
      simp only [Bool.or_eq_true] at hd
      exact Or.inr ⟨⟨hc, hnow⟩, hd⟩
    · exact Or.inl (h2 hever1 (by simpa using hc))
  · intro h
    simp only [World.record, Bool.or_eq_true, Bool.and_eq_true, Bool.not_eq_true'] at h ⊢
    rcases h with h | ⟨_, h⟩
    · exact Or.inl (h3 h)
    · exact h

theorem step_inv (bound : Nat) (w : World) (e : Event) (hw : w.Inv) : (step bound w e).Inv := by
  cases e with
  | managerPass members =>
    cases hs : w.stored with
    | none => simpa only [step, hs] using hw
    | some p =>
      simp only [step, hs]
      refine World.record_inv w _ _ hw (fun hb ha => ?_)
      rw [hs] at hb
      simp [pluginPass_drops_only_on_unload bound members p hb ha]
  | deleteRequest =>
    cases hs : w.stored with
    | none => simpa only [step, hs] using hw
    | some p =>
      simp only [step, hs]
      refine World.record_inv w _ _ hw (fun hb ha => ?_)
      rw [hs] at hb
      rw [carries_some] at hb ha
      rw [hb] at ha
      exact absurd ha (by simp)
  | platformCollect =>
    cases hs : w.stored with
    | none => simpa only [step, hs] using hw
    | some p =>
      simp only [step, hs]
      split
      · rename_i hcond
        refine World.record_inv w _ _ hw (fun hb _ => ?_)
        rw [hs, carries_some] at hb
        simp only [Bool.and_eq_true, List.isEmpty_iff] at hcond
        rw [hcond.2] at hb
        exact absurd hb (by simp)
      · exact hw

theorem run_inv (bound : Nat) (w : World) (events : List Event) (hw : w.Inv) :
    (run bound w events).Inv := by
  induction events generalizing w with
  | nil => exact hw
  | cons e es ih => exact ih (step bound w e) (step_inv bound w e hw)

/-- The platform's gate: a step removes the stored plugin only when it is marked for
deletion and no finalizer is left on it. -/
theorem step_removes_only_unguarded (bound : Nat) (w : World) (e : Event) (p : EmqxPlugin)
    (hs : w.stored = some p) (hgone : (step bound w e).stored = none) :
    p.Finalizers = [] ∧ p.DeletionRequested = true := by
  cases e with
  | managerPass members => simp [step, hs, World.record] at hgone
  | deleteRequest => simp [step, hs, World.record] at hgone
  | platformCollect =>
    simp only [step, hs] at hgone
    split at hgone
    · rename_i hcond
      simp only [Bool.and_eq_true, List.isEmpty_iff] at hcond
      exact ⟨hcond.2, hcond.1⟩
    · rw [hs] at hgone
      exact absurd hgone (by simp)

/-- C6: finalizer safety of the engine. In every state reachable by passes of the
Plugin Lifecycle Manager, deletion requests and the platform's removal, a plugin is
physically removed only when it is marked for deletion and carries no finalizer, so
never while `"apps.emqx.io/finalizer"` is present; if it ever carried the finalizer,
an unload was attempted before the removal; and a plugin that has disappeared either
had its finalizer removed after an unload attempt or never carried the finalizer. -/
theorem finalizer_gate (bound : Nat) (p0 p : EmqxPlugin) (events : List Event) (e : Event) :
    ((run bound (World.init p0) events).stored = some p →
      (step bound (run bound (World.init p0) events) e).stored = none →
      finalizer ∉ p.Finalizers ∧ p.Finalizers = [] ∧ p.DeletionRequested = true ∧
      ((run bound (World.init p0) events).everCarried = true →
        (run bound (World.init p0) events).unloadAttempted = true)) ∧
    ((run bound (World.init p0) events).stored = some p → finalizer ∈ p.Finalizers →
      (step bound (run bound (World.init p0) events) e).stored ≠ none) ∧
    ((run bound (World.init p0) events).stored = none →
      ((run bound (World.init p0) events).releasedAfterUnload = true ∧
        (run bound (World.init p0) events).unloadAttempted = true) ∨
      (run bound (World.init p0) events).everCarried = false) := by
  obtain ⟨_, h2, h3⟩ := run_inv bound (World.init p0) events (World.init_inv p0)
  refine ⟨fun hs hrem => ?_, fun hs hmem hrem => ?_, fun hnone => ?_⟩
  · obtain ⟨hfin, hdel⟩ := step_removes_only_unguarded bound _ e p hs hrem
    refine ⟨by rw [hfin]; simp, hfin, hdel, fun hever => h3 (h2 hever ?_)⟩
    rw [hs, carries_some, hfin]
    rfl
  · obtain ⟨hfin, _⟩ := step_removes_only_unguarded bound _ e p hs hrem
    rw [hfin] at hmem
    exact absurd hmem (by simp)
  · cases hever : (run bound (World.init p0) events).everCarried with
    | false => exact Or.inr rfl
    | true =>
      have h := h2 hever (by rw [hnone]; rfl)
      exact Or.inl ⟨h, h3 h⟩

/-- C6, witness: the manager attaches the finalizer and loads the plugin, the plugin is
deleted, the manager unloads it and releases the finalizer, and only then the platform
removes it; while the finalizer is still on it, the platform does not remove it. -/
theorem finalizer_gate_witness :
    ((run 3 (World.init lwm2m) managedLife).stored = some lwm2mReleased ∧
      (step 3 (run 3 (World.init lwm2m) managedLife) Event.platformCollect).stored = none ∧
      finalizer ∉ lwm2mReleased.Finalizers ∧
      (run 3 (World.init lwm2m) managedLife).unloadAttempted = true) ∧
    ((run 3 (World.init lwm2m) guardedLife).stored = some lwm2mGuarded ∧
      finalizer ∈ lwm2mGuarded.Finalizers ∧
      (step 3 (run 3 (World.init lwm2m) guardedLife) Event.platformCollect).stored ≠ none) ∧
    ((run 3 (World.init lwm2m) (managedLife ++ [Event.platformCollect])).stored = none ∧
      (((run 3 (World.init lwm2m) (managedLife ++ [Event.platformCollect])).releasedAfterUnload
            = true ∧
          (run 3 (World.init lwm2m) (managedLife ++ [Event.platformCollect])).unloadAttempted
            = true) ∨
        (run 3 (World.init lwm2m) (managedLife ++ [Event.platformCollect])).everCarried
          = false)) :=
  have h1 := (finalizer_gate 3 lwm2m lwm2mReleased managedLife Event.platformCollect).1
    (by decide) (by decide)
  ⟨⟨by decide, by decide, h1.1, h1.2.2.2 (by decide)⟩,
   ⟨by decide, by decide,
    (finalizer_gate 3 lwm2m lwm2mGuarded guardedLife Event.platformCollect).2.1
      (by decide) (by decide)⟩,
   ⟨by decide,
    (finalizer_gate 3 lwm2m lwm2mReleased (managedLife ++ [Event.platformCollect])
      Event.platformCollect).2.2 (by decide)⟩⟩

/-! ## Theorems: convergence of the suite's scenario -/

theorem loadTargets_healthy (labels : List (String × String)) (members : List Member)
    (q : EmqxPlugin) (hm : Healthy labels members) (hsel : selects q.Selector labels = true) :
    loadTargets q members = members := by
  unfold loadTargets selectedMembers
  rw [List.filter_filter, List.filter_eq_self]
  intro m hmem
  obtain ⟨h1, h2, _, _, h5⟩ := hm m hmem
  simp [Member.ready, h1, h2, h5, hsel]

theorem load_failing_healthy (labels : List (String × String)) (members : List Member)
    (q : EmqxPlugin) (hm : Healthy labels members) (hsel : selects q.Selector labels = true) :
    (loadTargets q members).filter (fun m => m.Load != AdminResponse.ok) = [] := by
  rw [loadTargets_healthy labels members q hm hsel, List.filter_eq_nil_iff]
  intro m hmem
  obtain ⟨_, _, _, h4, _⟩ := hm m hmem
  simp [h4]

/-- A pass over a Pending plugin attaches the finalizer and moves it to Loading. -/
theorem pluginPass_pending (bound : Nat) (members : List Member) (q : EmqxPlugin)
    (hdel : q.DeletionRequested = false) (hphase : q.Phase = Phase.Pending) :
    (pluginPass bound members q).Phase = Phase.Loading ∧
    (pluginPass bound members q).DeletionRequested = false ∧
    (pluginPass bound members q).Selector = q.Selector := by
  unfold pluginPass AddFinalizer
  simp only [hdel, hphase, Bool.false_eq_true, if_false]
  refine ⟨trivial, ?_, ?_⟩ <;> split <;> simp [hdel]

/-- A pass over a plugin that is Loading, Loaded or LoadFailed, against healthy
members, leaves it Loaded with no failing member. -/
theorem pluginPass_load (bound : Nat) (labels : List (String × String))
    (members : List Member) (q : EmqxPlugin) (hm : Healthy labels members)
    (hsel : selects q.Selector labels = true) (hdel : q.DeletionRequested = false)
    (h1 : q.Phase ≠ Phase.Pending) (h2 : q.Phase ≠ Phase.Unloading) :
    (pluginPass bound members q).Phase = Phase.Loaded ∧
    (pluginPass bound members q).FailedMembers = [] ∧
    (pluginPass bound members q).DeletionRequested = false ∧
    (pluginPass bound members q).Selector = q.Selector := by
  have hfail := load_failing_healthy labels members q hm hsel
  unfold pluginPass
  cases hp : q.Phase with
  | Pending => exact absurd hp h1
  | Unloading => exact absurd hp h2
  | Loading => simp [hdel, hfail]
  | Loaded => simp [hdel, hfail]
  | LoadFailed => simp [hdel, hfail]

theorem runPasses_succ (bound : Nat) (replicas : Int) (members : List Member) (n : Nat)
    (s : Status × EmqxPlugin) :
    runPasses bound replicas members (n + 1) s
      = (aggregateStatus replicas members (n + 1),
          pluginPass bound members (runPasses bound replicas members n s).2) := rfl

/-- After the first pass the plugin is past Pending, and still selecting the cluster. -/
theorem plugin_after_first_pass (bound : Nat) (replicas : Int) (labels : List (String × String))
    (members : List Member) (st0 : Status) (plugin : EmqxPlugin) (hm : Healthy labels members)
    (hsel : selects plugin.Selector labels = true) (hdel : plugin.DeletionRequested = false)
    (hphase : plugin.Phase ≠ Phase.Unloading) :
    (runPasses bound replicas members 1 (st0, plugin)).2.Phase ≠ Phase.Pending ∧
    (runPasses bound replicas members 1 (st0, plugin)).2.Phase ≠ Phase.Unloading ∧
    (runPasses bound replicas members 1 (st0, plugin)).2.DeletionRequested = false ∧
    (runPasses bound replicas members 1 (st0, plugin)).2.Selector = plugin.Selector := by
  rw [runPasses_succ]
  show (pluginPass bound members plugin).Phase ≠ Phase.Pending ∧
    (pluginPass bound members plugin).Phase ≠ Phase.Unloading ∧
    (pluginPass bound members plugin).DeletionRequested = false ∧
    (pluginPass bound members plugin).Selector = plugin.Selector
  by_cases hp : plugin.Phase = Phase.Pending
  · obtain ⟨h1, h2, h3⟩ := pluginPass_pending bound members plugin hdel hp
    rw [h1]
    exact ⟨by decide, by decide, h2, h3⟩
  · obtain ⟨h1, _, h3, h4⟩ := pluginPass_load bound labels members plugin hm hsel hdel hp hphase
    rw [h1]
    exact ⟨by decide, by decide, h3, h4⟩

/-- From the second pass on the plugin is Loaded on every member. -/
theorem plugin_loaded_from_second_pass (bound : Nat) (replicas : Int)
    (labels : List (String × String)) (members : List Member) (st0 : Status)
    (plugin : EmqxPlugin) (hm : Healthy labels members)
    (hsel : selects plugin.Selector labels = true) (hdel : plugin.DeletionRequested = false)
    (hphase : plugin.Phase ≠ Phase.Unloading) (k : Nat) :
    (runPasses bound replicas members (k + 2) (st0, plugin)).2.Phase = Phase.Loaded ∧
    (runPasses bound replicas members (k + 2) (st0, plugin)).2.FailedMembers = [] ∧
    (runPasses bound replicas members (k + 2) (st0, plugin)).2.DeletionRequested = false ∧
    (runPasses bound replicas members (k + 2) (st0, plugin)).2.Selector = plugin.Selector := by
  induction k with
  | zero =>
    obtain ⟨h1, h2, h3, h4⟩ :=
      plugin_after_first_pass bound replicas labels members st0 plugin hm hsel hdel hphase
    rw [runPasses_succ]
    obtain ⟨g1, g2, g3, g4⟩ := pluginPass_load bound labels members _ hm (by rw [h4]; exact hsel)
      h3 h1 h2
    exact ⟨g1, g2, g3, g4.trans h4⟩
  | succ k ih =>
    obtain ⟨h1, _, h3, h4⟩ := ih
    rw [runPasses_succ]
    obtain ⟨g1, g2, g3, g4⟩ := pluginPass_load bound labels members _ hm (by rw [h4]; exact hsel)
      h3 (by rw [h1]; decide) (by rw [h1]; decide)
    exact ⟨g1, g2, g3, g4.trans h4⟩

/-- C7: for a cluster requesting 3 replicas on a platform with 3 healthy members, and a
plugin whose selector matches the cluster's labels, every state from the second pass
on has Running True, Replicas 3, ReadyReplicas 3, 3 NodeStatuses, and the plugin
Loaded on all 3 members. -/
theorem scenario_converges (bound : Nat) (labels : List (String × String))
    (members : List Member) (st0 : Status) (plugin : EmqxPlugin) (n : Nat)
    (hlen : members.length = 3) (hm : Healthy labels members)
    (hsel : selects plugin.Selector labels = true) (hdel : plugin.DeletionRequested = false)
    (hphase : plugin.Phase ≠ Phase.Unloading) (hn : 2 ≤ n) :
    runningCondition (runPasses bound 3 members n (st0, plugin)).1.Conditions = ConditionTrue ∧
    (runPasses bound 3 members n (st0, plugin)).1.Replicas = 3 ∧
    (runPasses bound 3 members n (st0, plugin)).1.ReadyReplicas = 3 ∧
    (runPasses bound 3 members n (st0, plugin)).1.NodeStatuses.length = 3 ∧
    (runPasses bound 3 members n (st0, plugin)).2.Phase = Phase.Loaded ∧
    (runPasses bound 3 members n (st0, plugin)).2.FailedMembers = [] ∧
    loadTargets (runPasses bound 3 members n (st0, plugin)).2 members = members := by
  obtain ⟨k, rfl⟩ : ∃ k, n = k + 2 := ⟨n - 2, by omega⟩
  obtain ⟨p1, p2, _, p4⟩ :=
    plugin_loaded_from_second_pass bound 3 labels members st0 plugin hm hsel hdel hphase k
  have hready : ∀ m ∈ members, m.ready = true := by
    intro m hmem
    obtain ⟨h1, h2, _⟩ := hm m hmem
    simp [Member.ready, h1, h2]
  have hcount : members.countP Member.ready = 3 := by
    rw [List.countP_eq_length.2 hready, hlen]
  have hstatus : (runPasses bound 3 members (k + 2) (st0, plugin)).1
      = aggregateStatus 3 members (k + 2) := rfl
  refine ⟨?_, ?_, ?_, ?_, p1, p2, ?_⟩
  · rw [hstatus, runningCondition_aggregateStatus]
    refine ⟨by rw [hcount]; rfl, by decide, hready, fun m hmem => (hm m hmem).2.2.1⟩
  · rw [hstatus]
    rfl
  · rw [hstatus]
    show ((members.countP Member.ready : Nat) : Int) = 3
    rw [hcount]
    rfl
  · rw [hstatus]
    simp [aggregateStatus, hlen]
  · exact loadTargets_healthy labels members _ hm (by rw [p4]; exact hsel)

/-- C7, witness: the suite's plugin, created Pending, and three healthy members: after
two passes the cluster is Running with 3, 3 and 3 and the plugin is Loaded. -/
theorem scenario_converges_witness :
    threeMembers.length = 3 ∧ selects lwm2m.Selector [("cluster", "emqx")] = true ∧
    runningCondition (runPasses 3 3 threeMembers 2 (Status.zero, lwm2m)).1.Conditions
      = ConditionTrue ∧
    (runPasses 3 3 threeMembers 2 (Status.zero, lwm2m)).1.ReadyReplicas = 3 ∧
    (runPasses 3 3 threeMembers 2 (Status.zero, lwm2m)).2.Phase = Phase.Loaded :=
  have hm : Healthy [("cluster", "emqx")] threeMembers := by
    intro m hmem
    simp only [threeMembers, List.mem_cons, List.mem_singleton, List.not_mem_nil,
      or_false] at hmem
    rcases hmem with rfl | rfl | rfl <;> exact ⟨rfl, rfl, rfl, rfl, rfl⟩
  have h := scenario_converges 3 [("cluster", "emqx")] threeMembers Status.zero lwm2m 2
    rfl hm (by decide) rfl (by decide) (Nat.le_refl 2)
  ⟨rfl, by decide, h.1, h.2.2.1, h.2.2.2.2.1⟩

end Emqx
